import Mathlib

/-!
Shallow embedding of the `printy` thermal-printer driver
(`src/printer/printer.rs`, `src/printer/serial.rs`, `src/printer/mod.rs`).

Durations are modelled in microseconds as `Nat`.  Bytes are `Nat` values
below 256; every place where the Rust code performs an `as u8` cast is
modelled with `% 256`.  The serial port is modelled as an oracle
`ok : Nat → Bool` giving the outcome of the n-th `port.write` call, and
every interaction with the port (waits, writes, raw sleeps) is recorded
in an event trace.  Rust panics (index out of bounds, division by zero,
slicing past the end) are modelled by the `PErr.crash` outcome.
-/

namespace Printy

/-- Failure modes: `transport` models an `anyhow` error coming from a
failed `port.write`; `encoding` models a failed `try_into::<u8>()`
conversion; `crash` models a Rust panic. -/
inductive PErr where
  | transport
  | encoding
  | crash
deriving DecidableEq

/-- Observable interactions with the serial port.  `wait d` is the
blocking sleep performed by `Printer::wait` (consuming the pending
timeout `d`); `write bs` hands the bytes `bs` to the port; `sleep d` is
a raw `thread::sleep` that does not consume the pending timeout. -/
inductive Event where
  | wait (d : Nat)
  | write (bs : List Nat)
  | sleep (d : Nat)
deriving DecidableEq

/-- The mutable state of `Printer` (`printer.rs` lines 11-28).  The
const-generic `BAUDRATE` parameter is modelled as the `baudrate` field;
it is never mutated. -/
structure PS where
  baudrate : Nat
  timeout : Nat
  last_byte : Nat
  last_column : Nat
  max_column : Nat
  char_height : Nat
  inter_line_spacing : Nat
  barcode_height : Nat
  max_chunk_height : Nat
  firmware_version : Nat
  dot_print_time : Nat
  dot_feed_time : Nat
deriving DecidableEq

/-- Result of running a printer computation: outcome, final state,
number of `port.write` calls performed, and the event trace. -/
instance {ε α : Type} [DecidableEq ε] [DecidableEq α] : DecidableEq (Except ε α) :=
  fun a b =>
    match a, b with
    | .ok x, .ok y =>
      if h : x = y then .isTrue (by rw [h]) else .isFalse (by simp [h])
    | .ok _, .error _ => .isFalse (by simp)
    | .error _, .ok _ => .isFalse (by simp)
    | .error x, .error y =>
      if h : x = y then .isTrue (by rw [h]) else .isFalse (by simp [h])

structure Out (α : Type) where
  res : Except PErr α
  ps : PS
  cnt : Nat
  tr : List Event
deriving DecidableEq

/-- Printer computations: a function of the port oracle, the current
state and the current write-call counter. -/
def PM (α : Type) : Type := (Nat → Bool) → PS → Nat → Out α

def PM.pure (a : α) : PM α := fun _ s n => ⟨.ok a, s, n, []⟩

def PM.bind (m : PM α) (f : α → PM β) : PM β := fun ok s n =>
  let o := m ok s n
  match o.res with
  | .ok a =>
    let o2 := f a ok o.ps o.cnt
    ⟨o2.res, o2.ps, o2.cnt, o.tr ++ o2.tr⟩
  | .error e => ⟨.error e, o.ps, o.cnt, o.tr⟩

instance : Monad PM where
  pure := PM.pure
  bind := PM.bind

/-- `Printer::wait` (lines 102-106): sleep for the pending timeout, then
reset it to zero. -/
def pwait : PM Unit := fun _ s n =>
  ⟨.ok (), { s with timeout := 0 }, n, [Event.wait s.timeout]⟩

/-- `self.port.write(bs)?`: consult the oracle for this write call. -/
def pwrite (bs : List Nat) : PM Unit := fun ok s n =>
  if ok n then ⟨.ok (), s, n + 1, [Event.write bs]⟩
  else ⟨.error .transport, s, n + 1, []⟩

/-- A raw `thread::sleep` that does not touch the pending timeout. -/
def psleep (d : Nat) : PM Unit := fun _ s n => ⟨.ok (), s, n, [Event.sleep d]⟩

def pmodify (f : PS → PS) : PM Unit := fun _ s n => ⟨.ok (), f s, n, []⟩

def pget : PM PS := fun _ s n => ⟨.ok s, s, n, []⟩

def pfail {α : Type} (e : PErr) : PM α := fun _ s n => ⟨.error e, s, n, []⟩

/-- Command byte constants (`mod.rs` lines 103-110). -/
def LF : Nat := 10
def FF : Nat := 12
def CR : Nat := 13
def DC2 : Nat := 18
def ESC : Nat := 27
def GS : Nat := 29

/-- `Printer::BYTE_DURATION` (`printer.rs` lines 35-36), microseconds:
`(11 * 1000000 + BAUDRATE / 2) / BAUDRATE`. -/
def BYTE_DURATION (baud : Nat) : Nat := (11 * 1000000 + baud / 2) / baud

/-- `feed_duration` (lines 109-111). -/
def feed_duration (s : PS) : Nat :=
  (s.char_height + s.inter_line_spacing) * s.dot_feed_time

/-- `text_line_duration` (lines 114-117). -/
def text_line_duration (s : PS) : Nat :=
  s.char_height * s.dot_print_time + s.inter_line_spacing * s.dot_feed_time

/-- `write_bytes` (lines 119-124): wait out the pending timeout, then
hand the bytes to the port. -/
def write_bytes (cmd : List Nat) : PM Unit := do
  pwait
  pwrite cmd

/-- `write_char` (lines 151-176).  The argument is the Unicode
codepoint; Rust's `c as u8` truncates it to the low 8 bits. -/
def write_char (c : Nat) : PM Unit :=
  if c % 256 = CR then PM.pure () else do
    pwait
    pwrite [c % 256]
    let s ← pget
    let d := BYTE_DURATION s.baudrate
    if c % 256 = LF ∨ s.max_column ≤ s.last_column then
      pmodify (fun s2 =>
        { s2 with
          last_column := 0, last_byte := LF,
          timeout := d + (if s.last_byte = LF then feed_duration s
                          else text_line_duration s) })
    else
      pmodify (fun s2 =>
        { s2 with last_column := s2.last_column + 1, last_byte := c % 256,
                  timeout := d })

/-- `write` (lines 178-183): `write_char` on each character in turn. -/
def write : List Nat → PM Unit
  | [] => PM.pure ()
  | c :: rest => do
    write_char c
    write rest

/-- The legacy loop `for n in 1..lines { self.write_char('\n')?; }`,
which runs `lines - 1` times. -/
def repeatLinefeed : Nat → PM Unit
  | 0 => PM.pure ()
  | k + 1 => do
    write_char 10
    repeatLinefeed k

/-- `cmd_feed` (lines 185-198). -/
def cmd_feed (lines : Nat) : PM Unit := do
  let s ← pget
  if 264 ≤ s.firmware_version then do
    write_bytes [ESC, 100, lines % 256]
    pmodify (fun s2 =>
      { s2 with timeout := s2.dot_feed_time * s2.char_height,
                last_byte := LF, last_column := 0 })
  else
    repeatLinefeed (lines - 1)

/-- The legacy wake loop body, repeated 10 times (lines 210-213). -/
def wakePulse : Nat → PM Unit
  | 0 => PM.pure ()
  | k + 1 => do
    write_bytes [0]
    pmodify (fun s => { s with timeout := 10000 })
    wakePulse k

/-- `cmd_wake` (lines 200-216). -/
def cmd_wake : PM Unit := do
  pmodify (fun s => { s with timeout := 0 })
  write_bytes [255]
  pmodify (fun s => { s with timeout := 50000 })
  let s ← pget
  if 264 < s.firmware_version then do
    write_bytes [ESC, 56, 0, 0]
    pmodify (fun s2 => { s2 with timeout := 50000 })
  else
    wakePulse 10

/-- `cmd_init` (lines 218-222). -/
def cmd_init : PM Unit := do
  write_bytes [ESC, 64]
  pmodify (fun s => { s with timeout := 100000 })

/-- `cmd_flush` (lines 224-228). -/
def cmd_flush : PM Unit :=
  write_bytes [FF]

/-- `cmd_set_heat_config` (lines 230-244); the two durations are in
microseconds and the `try_into::<u8>()?` conversions fail with an
encoding error above 255.  The conversions are evaluated before the
write, as in the Rust array literal. -/
def cmd_set_heat_config (dots heating_time heating_interval : Nat) : PM Unit :=
  if heating_time / 10 < 256 then
    if heating_interval / 10 < 256 then
      write_bytes [ESC, 55, dots % 256, heating_time / 10, heating_interval / 10]
    else pfail .encoding
  else pfail .encoding

/-- `cmd_set_print_density` (lines 246-256): writes directly to the
port, without the wait/write discipline, then sleeps 1ms. -/
def cmd_set_print_density (density break_time : Nat) : PM Unit :=
  if break_time / 250 < 256 then do
    pwrite [27, 35, density % 256 ||| (break_time / 250 % 256 &&& 7) <<< 5]
    psleep 1000
  else pfail .encoding

/-- `Underline` (`mod.rs` lines 16-20). -/
inductive Underline where
  | uNone
  | uSingle
  | uDouble
deriving DecidableEq

/-- `cmd_set_underline` (lines 258-267): writes directly to the port,
without the wait/write discipline, then sleeps 1ms. -/
def cmd_set_underline (u : Underline) : PM Unit := do
  pwrite [ESC, 45, match u with | .uNone => 0 | .uSingle => 1 | .uDouble => 2]
  psleep 1000

/-- `set_barcode_height` (lines 269-272). -/
def set_barcode_height (val : Nat) : PM Unit :=
  write_bytes [GS, 104, max 1 (val % 256)]

/-- `cmd_test_page` (lines 274-280). -/
def cmd_test_page : PM Unit := do
  write_bytes [DC2, 84]
  pmodify (fun s =>
    { s with timeout := s.dot_print_time * 24 * 26 + s.dot_feed_time * (6 * 26 + 30) })

/-- `Barcode` (`mod.rs` lines 90-101) and its discriminant. -/
inductive Barcode where
  | upcA | upcE | ean13 | ean8 | code39 | itf | codabar | code93 | code128
deriving DecidableEq

def barcodeByte : Barcode → Nat
  | .upcA => 0 | .upcE => 1 | .ean13 => 2 | .ean8 => 3 | .code39 => 4
  | .itf => 5 | .codabar => 6 | .code93 => 7 | .code128 => 8

/-- `print_barcode` (lines 126-149).  `text` is the UTF-8 byte sequence
of the `&str` argument; `s.len() as u8` becomes `text.length % 256`. -/
def print_barcode (text : List Nat) (barcode_type : Barcode) : PM Unit := do
  cmd_feed 1
  let s ← pget
  let bt := if 264 ≤ s.firmware_version then (barcodeByte barcode_type + 65) % 256
            else barcodeByte barcode_type % 256
  write_bytes [GS, 72, 2]
  write_bytes [GS, 119, 3]
  if 264 ≤ s.firmware_version then do
    write_bytes [GS, 107, bt, text.length % 256]
    write_bytes text
  else do
    write_bytes [GS, 107, bt]
    write_bytes text
    write_bytes [0]
  pmodify (fun s2 =>
    { s2 with timeout := (s2.barcode_height + 40) * s2.dot_print_time,
              last_byte := LF })

/-- `init` (lines 69-96). -/
def init : PM Unit := do
  cmd_init
  pmodify (fun s =>
    { s with last_byte := LF, last_column := 0, max_column := 32,
             char_height := 24, inter_line_spacing := 6, barcode_height := 50 })
  let s ← pget
  if 264 ≤ s.firmware_version then
    write_bytes [ESC, 68, 4, 8, 12, 16, 20, 24, 28, 0]
  else PM.pure ()
  cmd_set_heat_config 11 120 40

/-- The row-packing loop of `print_bitmap` (lines 311-320) over a fixed
buffer `b`, carrying the running bit index `idx`.  The out-of-bounds
write `b[byte] |= 1 << shift` (reached only when the bit is set) is
modelled by returning `none`. -/
def packInto (b : List Nat) (idx : Nat) : List Bool → Option (List Nat)
  | [] => some b
  | bit :: rest =>
    if bit then
      if idx / 8 < b.length then
        packInto (b.set (idx / 8) ((b.getD (idx / 8) 0) ||| (1 <<< (7 - idx % 8))))
          (idx + 1) rest
      else none
    else packInto b (idx + 1) rest

/-- Total variant of the same packing loop (used where the indices are
known to be in bounds; `List.set` out of range is a no-op). -/
def packIntoT (b : List Nat) (idx : Nat) : List Bool → List Nat
  | [] => b
  | bit :: rest =>
    packIntoT
      (if bit then b.set (idx / 8) ((b.getD (idx / 8) 0) ||| (1 <<< (7 - idx % 8)))
       else b)
      (idx + 1) rest

/-- Packing one row of `w` bits MSB-first into `ceil(w/8)` bytes, the
scheme exercised by `tests/bitmaps.rs` (buffer sized to the row). -/
def packBits (w : Nat) (row : List Bool) : List Nat :=
  packIntoT (List.replicate ((w + 7) / 8) 0) 0 row

/-- MSB-first bits of one byte. -/
def unpackByte (b : Nat) : List Bool :=
  [b.testBit 7, b.testBit 6, b.testBit 5, b.testBit 4,
   b.testBit 3, b.testBit 2, b.testBit 1, b.testBit 0]

/-- MSB-first unpacking of packed bytes back to bits. -/
def unpackBytes : List Nat → List Bool
  | [] => []
  | b :: rest => unpackByte b ++ unpackBytes rest

/-- Structural worker for `listChunks`: the first argument is fuel,
always instantiated with the list length (one chunk consumes at least
one element when `sz ≥ 1`, so the fuel never runs out). -/
def listChunksAux (sz : Nat) : Nat → List α → List (List α)
  | _, [] => []
  | 0, _ :: _ => []
  | fuel + 1, x :: xs =>
    if sz = 0 then []
    else (x :: xs).take sz :: listChunksAux sz fuel ((x :: xs).drop sz)

/-- `bitvec`'s `chunks(sz)`: split a list into consecutive chunks of
`sz` elements, the last possibly shorter; no chunks for an empty list.
(`chunks(0)` panics in Rust; `print_bitmap` guards that case before this
function is ever applied with `sz = 0`.) -/
def listChunks (sz : Nat) (l : List α) : List (List α) :=
  listChunksAux sz l.length l

/-- The rows consumed by the inner loop of `print_bitmap`: `brows`
consecutive groups of `w` bits taken from the chunk's iterator. -/
def rowsOf (w : Nat) : Nat → List Bool → List (List Bool)
  | 0, _ => []
  | k + 1, chunk => chunk.take w :: rowsOf w k (chunk.drop w)

/-- One packed row write of `print_bitmap` (lines 310-323): run the
packing loop over the 48-byte buffer, then write `b[..w_in_bytes]`.
Both the out-of-bounds buffer write and an out-of-range slice are Rust
panics, in that order. -/
def doRow (w_in_bytes : Nat) (row : List Bool) : PM Unit :=
  match packInto (List.replicate 48 0) 0 row with
  | none => pfail .crash
  | some b =>
    if 48 < w_in_bytes then pfail .crash
    else write_bytes (b.take w_in_bytes)

def doRows (w_in_bytes : Nat) : List (List Bool) → PM Unit
  | [] => PM.pure ()
  | r :: rest => do
    doRow w_in_bytes r
    doRows w_in_bytes rest

/-- One chunk of `print_bitmap` (lines 300-326): the `[DC2,'*',brows as
u8, w_in_bytes as u8]` header, the packed rows, then the timeout for the
chunk. -/
def doChunk (w w_in_bytes : Nat) (chunk : List Bool) : PM Unit := do
  let brows := chunk.length / w
  write_bytes [DC2, 42, brows % 256, w_in_bytes % 256]
  doRows w_in_bytes (rowsOf w brows chunk)
  pmodify (fun s => { s with timeout := s.dot_print_time * brows })

def doChunks (w w_in_bytes : Nat) : List (List Bool) → PM Unit
  | [] => PM.pure ()
  | c :: rest => do
    doChunk w w_in_bytes c
    doChunks w w_in_bytes rest

/-- `print_bitmap` (lines 282-330).  `bits` is the MSB-first bit view of
the `&[u8]` bitmap argument.  In source order: `(512*8)/w` panics when
`w = 0`; `dot_print_time` is set to 5ms; the slice `[..w*h]` panics when
the bitmap is too short; `chunks(max_rows_in_chunk * w)` panics when the
chunk size is zero. -/
def print_bitmap (w h : Nat) (bits : List Bool) : PM Unit :=
  if w = 0 then pfail .crash else do
    pmodify (fun s => { s with dot_print_time := 5000 })
    if bits.length < w * h then pfail .crash
    else if (4096 / w) * w = 0 then pfail .crash
    else do
      doChunks w ((w + 7) / 8) (listChunks ((4096 / w) * w) (bits.take (w * h)))
      pmodify (fun s => { s with last_byte := LF })

/-- The state built by `Printer::new` (lines 38-67): defaults plus the
500ms settling timeout. -/
def printerNew : PS :=
  { baudrate := 19200, timeout := 500000, last_byte := LF, last_column := 0,
    max_column := 32, char_height := 24, inter_line_spacing := 6,
    barcode_height := 50, max_chunk_height := 255, firmware_version := 268,
    dot_print_time := 20000, dot_feed_time := 2100 }

/-- The same printer configured for a legacy firmware dialect. -/
def legacyPrinter : PS :=
  { printerNew with firmware_version := 263 }

/-- Run one operation from a given state with a fresh write counter. -/
def runOp (m : PM Unit) (ok : Nat → Bool) (s : PS) : Out Unit := m ok s 0

/-- The port oracle on which every write succeeds. -/
def okAll : Nat → Bool := fun _ => true

/-- The port oracle on which every write fails. -/
def okNone : Nat → Bool := fun _ => false

/-- The byte payloads handed to the port, in order. -/
def writesOf (tr : List Event) : List (List Nat) :=
  tr.filterMap (fun e => match e with | Event.write bs => some bs | _ => none)

/-- `waitLed tr` holds when no byte is handed to the port before the
first blocking wait: every `write` event is preceded by a `wait`. -/
def waitLed : List Event → Bool
  | [] => true
  | Event.wait _ :: _ => true
  | Event.write _ :: _ => false
  | Event.sleep _ :: rest => waitLed rest

/-- Whether a run ended in a modelled Rust panic. -/
def crashed (o : Out Unit) : Bool :=
  match o.res with
  | .error .crash => true
  | _ => false

/-- Whether a run ended in an encoding error. -/
def encodingFailed (o : Out Unit) : Bool :=
  match o.res with
  | .error .encoding => true
  | _ => false

end Printy

namespace Printy

/-! ### Generic run lemmas -/

lemma bind_ok {α β : Type} {m : PM α} {f : α → PM β} {ok : Nat → Bool} {s : PS}
    {n : Nat} {a : α} (h : (m ok s n).res = .ok a) :
    (m >>= f) ok s n =
      ⟨(f a ok (m ok s n).ps (m ok s n).cnt).res,
       (f a ok (m ok s n).ps (m ok s n).cnt).ps,
       (f a ok (m ok s n).ps (m ok s n).cnt).cnt,
       (m ok s n).tr ++ (f a ok (m ok s n).ps (m ok s n).cnt).tr⟩ := by
  show PM.bind m f ok s n = _
  simp only [PM.bind, h]

lemma bind_err {α β : Type} {m : PM α} {f : α → PM β} {ok : Nat → Bool} {s : PS}
    {n : Nat} {e : PErr} (h : (m ok s n).res = .error e) :
    (m >>= f) ok s n = ⟨.error e, (m ok s n).ps, (m ok s n).cnt, (m ok s n).tr⟩ := by
  show PM.bind m f ok s n = _
  simp only [PM.bind, h]

lemma bind_tr {α β : Type} (m : PM α) (f : α → PM β) (ok : Nat → Bool) (s : PS) (n : Nat) :
    ((m >>= f) ok s n).tr =
      (m ok s n).tr ++
        (match (m ok s n).res with
         | .ok a => (f a ok (m ok s n).ps (m ok s n).cnt).tr
         | .error _ => []) := by
  cases h : (m ok s n).res with
  | ok a => rw [bind_ok h]
  | error e => rw [bind_err h]; simp

lemma bind_res {α β : Type} (m : PM α) (f : α → PM β) (ok : Nat → Bool) (s : PS) (n : Nat) :
    ((m >>= f) ok s n).res =
      (match (m ok s n).res with
       | .ok a => (f a ok (m ok s n).ps (m ok s n).cnt).res
       | .error e => .error e) := by
  cases h : (m ok s n).res with
  | ok a => rw [bind_ok h]
  | error e => rw [bind_err h]

lemma bind_ps {α β : Type} (m : PM α) (f : α → PM β) (ok : Nat → Bool) (s : PS) (n : Nat) :
    ((m >>= f) ok s n).ps =
      (match (m ok s n).res with
       | .ok a => (f a ok (m ok s n).ps (m ok s n).cnt).ps
       | .error _ => (m ok s n).ps) := by
  cases h : (m ok s n).res with
  | ok a => rw [bind_ok h]
  | error e => rw [bind_err h]

lemma run_pure {α : Type} (a : α) (ok : Nat → Bool) (s : PS) (n : Nat) :
    (Pure.pure a : PM α) ok s n = ⟨.ok a, s, n, []⟩ := rfl

lemma writesOf_append (t1 t2 : List Event) :
    writesOf (t1 ++ t2) = writesOf t1 ++ writesOf t2 := by
  simp [writesOf]

/-! ### The wait/write discipline (claim C2) -/

/-- `m` always produces a trace headed by a `wait` event. -/
def HW {α : Type} (m : PM α) : Prop :=
  ∀ ok s n, ∃ d t, (m ok s n).tr = Event.wait d :: t

/-- `m` produces either an empty trace or a trace headed by a `wait`. -/
def SWE {α : Type} (m : PM α) : Prop :=
  ∀ ok s n, (m ok s n).tr = [] ∨ ∃ d t, (m ok s n).tr = Event.wait d :: t

lemma HW.swe {α : Type} {m : PM α} (h : HW m) : SWE m :=
  fun ok s n => Or.inr (h ok s n)

lemma hw_pwait : HW pwait := fun _ s _ => ⟨s.timeout, [], rfl⟩

lemma HW.bindLeft {α β : Type} {m : PM α} {f : α → PM β} (h : HW m) : HW (m >>= f) := by
  intro ok s n
  obtain ⟨d, t, ht⟩ := h ok s n
  rw [bind_tr]
  cases (m ok s n).res <;> exact ⟨d, _, by rw [ht]; rfl⟩

lemma hw_write_bytes (bs : List Nat) : HW (write_bytes bs) :=
  hw_pwait.bindLeft

lemma swe_pure {α : Type} (a : α) : SWE (PM.pure a) := fun _ _ _ => Or.inl rfl

lemma swe_pget : SWE pget := fun _ _ _ => Or.inl rfl

lemma swe_pmodify (f : PS → PS) : SWE (pmodify f) := fun _ _ _ => Or.inl rfl

lemma swe_pfail {α : Type} (e : PErr) : SWE (pfail e : PM α) := fun _ _ _ => Or.inl rfl

lemma SWE.bindAll {α β : Type} {m : PM α} {f : α → PM β} (h1 : SWE m)
    (h2 : ∀ a, SWE (f a)) : SWE (m >>= f) := by
  intro ok s n
  rw [bind_tr]
  rcases h1 ok s n with h | ⟨d, t, ht⟩
  · rw [h]
    cases hres : (m ok s n).res with
    | ok a => simpa using h2 a ok (m ok s n).ps (m ok s n).cnt
    | error e => simp
  · rw [ht]
    cases (m ok s n).res <;> exact Or.inr ⟨d, _, rfl⟩

lemma swe_ite {α : Type} (c : Prop) [Decidable c] {m1 m2 : PM α}
    (h1 : SWE m1) (h2 : SWE m2) : SWE (if c then m1 else m2) := by
  by_cases hc : c
  · rwa [if_pos hc]
  · rwa [if_neg hc]

lemma swe_write_char (c : Nat) : SWE (write_char c) := by
  unfold write_char
  exact swe_ite _ (swe_pure ()) (hw_pwait.bindLeft.swe)

lemma swe_write (cs : List Nat) : SWE (write cs) := by
  induction cs with
  | nil => exact swe_pure ()
  | cons c rest ih => exact (swe_write_char c).bindAll (fun _ => ih)

lemma swe_repeatLinefeed (k : Nat) : SWE (repeatLinefeed k) := by
  induction k with
  | zero => exact swe_pure ()
  | succ k ih => exact (swe_write_char 10).bindAll (fun _ => ih)

lemma swe_cmd_feed (lines : Nat) : SWE (cmd_feed lines) := by
  unfold cmd_feed
  exact swe_pget.bindAll (fun s =>
    swe_ite _ ((hw_write_bytes _).bindLeft.swe) (swe_repeatLinefeed _))

lemma swe_wakePulse (k : Nat) : SWE (wakePulse k) := by
  induction k with
  | zero => exact swe_pure ()
  | succ k ih => exact (hw_write_bytes _).bindLeft.swe

lemma swe_cmd_wake : SWE cmd_wake := by
  unfold cmd_wake
  exact (swe_pmodify _).bindAll (fun _ => (hw_write_bytes _).bindLeft.swe)

lemma swe_cmd_init : SWE cmd_init :=
  (hw_write_bytes _).bindLeft.swe

lemma swe_cmd_flush : SWE cmd_flush :=
  (hw_write_bytes _).swe

lemma swe_cmd_set_heat_config (d ht hi : Nat) : SWE (cmd_set_heat_config d ht hi) := by
  unfold cmd_set_heat_config
  exact swe_ite _ (swe_ite _ (hw_write_bytes _).swe (swe_pfail _)) (swe_pfail _)

lemma swe_set_barcode_height (v : Nat) : SWE (set_barcode_height v) :=
  (hw_write_bytes _).swe

lemma swe_cmd_test_page : SWE cmd_test_page :=
  (hw_write_bytes _).bindLeft.swe

lemma swe_print_barcode (text : List Nat) (b : Barcode) : SWE (print_barcode text b) := by
  unfold print_barcode
  exact (swe_cmd_feed 1).bindAll (fun _ =>
    swe_pget.bindAll (fun s => (hw_write_bytes _).bindLeft.swe))

lemma hw_cmd_init : HW cmd_init :=
  (hw_write_bytes _).bindLeft

lemma swe_init : SWE init :=
  hw_cmd_init.bindLeft.swe

lemma hw_doChunk (w wib : Nat) (chunk : List Bool) : HW (doChunk w wib chunk) :=
  (hw_write_bytes _).bindLeft

lemma swe_doChunks (w wib : Nat) (cs : List (List Bool)) : SWE (doChunks w wib cs) := by
  induction cs with
  | nil => exact swe_pure ()
  | cons c rest ih => exact (hw_doChunk w wib c).bindLeft.swe

lemma swe_print_bitmap (w h : Nat) (bits : List Bool) : SWE (print_bitmap w h bits) := by
  unfold print_bitmap
  refine swe_ite _ (swe_pfail _) ?_
  exact (swe_pmodify _).bindAll (fun _ =>
    swe_ite _ (swe_pfail _) (swe_ite _ (swe_pfail _)
      ((swe_doChunks _ _ _).bindAll (fun _ => swe_pmodify _))))

lemma waitLed_of_swe {m : PM Unit} (h : SWE m) (ok : Nat → Bool) (s : PS) :
    waitLed (runOp m ok s).tr = true := by
  rcases h ok s 0 with h0 | ⟨d, t, h0⟩ <;>
    simp [runOp] at h0 ⊢ <;> rw [h0] <;> rfl

end Printy

namespace Printy

/-! ### Bit-packing lemmas (claims C1, C3, C9) -/

lemma packIntoT_length (row : List Bool) : ∀ (b : List Nat) (i : Nat),
    (packIntoT b i row).length = b.length := by
  induction row with
  | nil => intro b i; rfl
  | cons bit rest ih =>
    intro b i
    unfold packIntoT
    rw [ih]
    split <;> simp

lemma packInto_eq_some (row : List Bool) : ∀ (b : List Nat) (i : Nat),
    i + row.length ≤ 8 * b.length →
    packInto b i row = some (packIntoT b i row) := by
  induction row with
  | nil => intro b i _; rfl
  | cons bit rest ih =>
    intro b i h
    unfold packInto packIntoT
    have hlen : rest.length + 1 = (bit :: rest).length := by simp
    by_cases hb : bit
    · rw [if_pos hb, if_pos hb]
      have hidx : i / 8 < b.length := by simp at h; omega
      rw [if_pos hidx]
      exact ih _ _ (by simp; simp at h; omega)
    · rw [if_neg hb, if_neg hb]
      exact ih _ _ (by simp at h ⊢; omega)

lemma getD_set_self (l : List Nat) (i v : Nat) (h : i < l.length) :
    (l.set i v).getD i 0 = v := by
  rw [List.getD_eq_getElem?_getD, List.getElem?_set_self h]
  rfl

lemma getD_set_ne (l : List Nat) {i j : Nat} (v : Nat) (h : i ≠ j) :
    (l.set i v).getD j 0 = l.getD j 0 := by
  rw [List.getD_eq_getElem?_getD, List.getD_eq_getElem?_getD,
    List.getElem?_set_ne h]

lemma getD_replicate_zero (k j : Nat) : (List.replicate k 0).getD j 0 = 0 := by
  induction k generalizing j with
  | zero => simp
  | succ k ih =>
    cases j with
    | zero => simp [List.replicate]
    | succ j => simp [List.replicate, ih j]

/-- Pointwise description of the packing loop: bit `7 - r` of byte `j`
of the final buffer is the original buffer's bit, or-ed with the row bit
whose running index is `8*j + r`. -/
lemma packIntoT_testBit (row : List Bool) : ∀ (b : List Nat) (i j r : Nat),
    r < 8 → i + row.length ≤ 8 * b.length →
    ((packIntoT b i row).getD j 0).testBit (7 - r) =
      (((b.getD j 0).testBit (7 - r)) ||
        (decide (i ≤ 8 * j + r) && row.getD (8 * j + r - i) false)) := by
  induction row with
  | nil => intro b i j r hr _; simp [packIntoT]
  | cons bit rest ih =>
    intro b i j r hr hb
    simp only [List.length_cons] at hb
    unfold packIntoT
    have hblen :
        (if bit then
            b.set (i / 8) ((b.getD (i / 8) 0) ||| (1 <<< (7 - i % 8)))
          else b).length = b.length := by
      split <;> simp
    rw [ih _ (i + 1) j r hr (by rw [hblen]; omega)]
    by_cases hij : 8 * j + r = i
    · have hj : j = i / 8 := by omega
      have hrm : r = i % 8 := by omega
      have hjlt : i / 8 < b.length := by omega
      have h2 : decide (i + 1 ≤ 8 * j + r) = false := by
        rw [decide_eq_false_iff_not]; omega
      have h3 : decide (i ≤ 8 * j + r) = true := by
        rw [decide_eq_true_eq]; omega
      have h4 : 8 * j + r - i = 0 := by omega
      rw [h2, h3, h4]
      by_cases hbit : bit
      · rw [if_pos hbit]
        rw [hj, getD_set_self _ _ _ hjlt]
        simp only [Nat.testBit_or]
        have h1 : (1 <<< (7 - i % 8)).testBit (7 - r) = true := by
          rw [Nat.shiftLeft_eq, Nat.one_mul, Nat.testBit_two_pow]
          simp [hrm]
        rw [h1]
        simp [hbit, hj]
      · rw [if_neg hbit]
        simp [hbit]
    · have hset :
          ((if bit then
              b.set (i / 8) ((b.getD (i / 8) 0) ||| (1 <<< (7 - i % 8)))
            else b).getD j 0).testBit (7 - r) =
            ((b.getD j 0).testBit (7 - r)) := by
        split
        · by_cases hj8 : i / 8 = j
          · rw [hj8, getD_set_self _ _ _ (by omega)]
            simp only [Nat.testBit_or]
            have hne : (1 <<< (7 - i % 8)).testBit (7 - r) = false := by
              rw [Nat.shiftLeft_eq, Nat.one_mul, Nat.testBit_two_pow]
              rw [decide_eq_false_iff_not]
              omega
            rw [hne]
            simp
          · rw [getD_set_ne _ _ hj8]
        · rfl
      rw [hset]
      by_cases hlt : 8 * j + r < i
      · have d1 : decide (i + 1 ≤ 8 * j + r) = false := by
          rw [decide_eq_false_iff_not]; omega
        have d2 : decide (i ≤ 8 * j + r) = false := by
          rw [decide_eq_false_iff_not]; omega
        rw [d1, d2]
        simp
      · have d1 : decide (i + 1 ≤ 8 * j + r) = true := by
          rw [decide_eq_true_eq]; omega
        have d2 : decide (i ≤ 8 * j + r) = true := by
          rw [decide_eq_true_eq]; omega
        have hk : 8 * j + r - i = (8 * j + r - (i + 1)) + 1 := by omega
        rw [d1, d2, hk, List.getD_cons_succ]

end Printy

namespace Printy

/-! ### Unpacking and the round-trip law (claim C3) -/

lemma unpackBytes_length (bs : List Nat) : (unpackBytes bs).length = 8 * bs.length := by
  induction bs with
  | nil => rfl
  | cons b rest ih =>
    simp only [unpackBytes, unpackByte, List.length_append, List.length_cons, ih]
    simp
    omega

lemma getD_append_right (l1 l2 : List Bool) (q : Nat) :
    (l1 ++ l2).getD (l1.length + q) false = l2.getD q false := by
  induction l1 with
  | nil => simp
  | cons x xs ih =>
    simp only [List.cons_append, List.length_cons]
    rw [show xs.length + 1 + q = (xs.length + q) + 1 by omega, List.getD_cons_succ]
    exact ih

lemma unpackBytes_getD (bs : List Nat) : ∀ q : Nat, q < 8 * bs.length →
    (unpackBytes bs).getD q false = (bs.getD (q / 8) 0).testBit (7 - q % 8) := by
  induction bs with
  | nil => intro q hq; simp at hq
  | cons b rest ih =>
    intro q hq
    by_cases h8 : q < 8
    · have hq8 : q / 8 = 0 := by omega
      have hqm : q % 8 = q := by omega
      rw [hq8, hqm]
      interval_cases q <;> rfl
    · obtain ⟨q', rfl⟩ : ∃ q', q = q' + 8 := ⟨q - 8, by omega⟩
      have hstep : (unpackBytes (b :: rest)).getD (q' + 8) false =
          (unpackBytes rest).getD q' false := by
        show (unpackByte b ++ unpackBytes rest).getD (q' + 8) false = _
        rw [show q' + 8 = (unpackByte b).length + q' by simp [unpackByte]; omega]
        exact getD_append_right _ _ _
      rw [hstep, ih q' (by simp at hq; omega)]
      have h1 : (q' + 8) / 8 = q' / 8 + 1 := by omega
      have h2 : (q' + 8) % 8 = q' % 8 := by omega
      rw [h1, h2, List.getD_cons_succ]

lemma getD_eq_getElem {α : Type} (l : List α) (d : α) (q : Nat) (h : q < l.length) :
    l.getD q d = l[q] := by
  rw [List.getD_eq_getElem?_getD, List.getElem?_eq_getElem h]
  rfl

/-- Round-trip for one row: packing `w` bits (`w` a multiple of 8)
MSB-first into `w/8` bytes and unpacking them again is the identity. -/
lemma unpackBytes_packBits (w : Nat) (row : List Bool) (h8 : w % 8 = 0)
    (hlen : row.length = w) : unpackBytes (packBits w row) = row := by
  have hpl : (packBits w row).length = (w + 7) / 8 := by
    unfold packBits
    rw [packIntoT_length]
    simp
  have hul : (unpackBytes (packBits w row)).length = w := by
    rw [unpackBytes_length, hpl]
    omega
  apply List.ext_getElem (by rw [hul, hlen])
  intro q h1 h2
  have hq : q < w := by rwa [hul] at h1
  rw [← getD_eq_getElem _ false q h1, ← getD_eq_getElem _ false q h2]
  rw [unpackBytes_getD _ q (by rw [hpl]; omega)]
  unfold packBits
  rw [packIntoT_testBit row _ 0 (q / 8) (q % 8) (by omega)
    (by rw [List.length_replicate]; omega)]
  rw [getD_replicate_zero]
  simp only [Nat.zero_testBit, Bool.false_or, Nat.zero_le, decide_true_eq_true,
    Bool.true_and, Nat.sub_zero]
  rw [Nat.div_add_mod]

lemma listChunksAux_eq_of_le {α : Type} (sz : Nat) (hsz : sz ≠ 0) :
    ∀ (fuel : Nat) (l : List α), l.length ≤ fuel →
      listChunksAux sz fuel l = listChunksAux sz l.length l := by
  intro fuel
  induction fuel using Nat.strong_induction_on with
  | _ fuel ih =>
    intro l hl
    match l with
    | [] =>
      cases fuel <;> rfl
    | x :: xs =>
      match fuel with
      | 0 => simp at hl
      | f + 1 =>
        show listChunksAux sz (f + 1) (x :: xs) =
          listChunksAux sz (xs.length + 1) (x :: xs)
        simp only [listChunksAux]
        rw [if_neg hsz, if_neg hsz]
        have hd : (List.drop sz (x :: xs)).length ≤ f := by
          simp only [List.length_drop, List.length_cons]
          simp only [List.length_cons] at hl
          omega
        have hd2 : (List.drop sz (x :: xs)).length ≤ xs.length := by
          simp only [List.length_drop, List.length_cons]
          omega
        rw [ih f (by omega) _ hd,
          ih xs.length (by simp only [List.length_cons] at hl; omega) _ hd2]

lemma listChunks_nil {α : Type} (sz : Nat) : listChunks sz ([] : List α) = [] :=
  rfl

lemma listChunks_cons {α : Type} (sz : Nat) (x : α) (xs : List α) (h : sz ≠ 0) :
    listChunks sz (x :: xs) =
      (x :: xs).take sz :: listChunks sz ((x :: xs).drop sz) := by
  show listChunksAux sz (xs.length + 1) (x :: xs) = _
  simp only [listChunksAux]
  rw [if_neg h]
  rw [listChunksAux_eq_of_le sz h xs.length ((x :: xs).drop sz)
    (by simp only [List.length_drop, List.length_cons]; omega)]
  rfl

/-- Round-trip for a whole bitmap split into rows of `w` bits. -/
lemma roundtrip_fuel (w : Nat) (hw : 0 < w) (h8 : w % 8 = 0) :
    ∀ (fuel : Nat) (bits : List Bool), bits.length ≤ fuel → w ∣ bits.length →
    ((listChunks w bits).map (fun row => unpackBytes (packBits w row))).flatten = bits := by
  intro fuel
  induction fuel with
  | zero =>
    intro bits hle _
    have hb : bits = [] := List.eq_nil_of_length_eq_zero (by omega)
    subst hb
    rw [listChunks_nil]
    rfl
  | succ fuel ih =>
    intro bits hle hdvd
    match bits with
    | [] =>
      rw [listChunks_nil]
      rfl
    | x :: xs =>
      rw [listChunks_cons w x xs (by omega)]
      have hwle : w ≤ (x :: xs).length := by
        rcases hdvd with ⟨k, hk⟩
        rcases k with - | k
        · simp only [List.length_cons] at hk
          omega
        · rw [hk]
          calc w = w * 1 := by omega
            _ ≤ w * (k + 1) := Nat.mul_le_mul_left w (by omega)
      have htake : ((x :: xs).take w).length = w := by
        rw [List.length_take]
        omega
      simp only [List.map_cons, List.flatten_cons]
      rw [unpackBytes_packBits w _ h8 htake]
      rw [ih ((x :: xs).drop w)
        (by
          rw [List.length_drop]
          simp only [List.length_cons] at hle ⊢
          omega)
        (by
          rw [List.length_drop]
          exact Nat.dvd_sub' hdvd dvd_rfl)]
      exact List.take_append_drop w (x :: xs)

end Printy

namespace Printy

/-! ### Error-avoidance machinery (claims C6, C9) -/

/-- The computation never ends in the failure `e`. -/
def avoids {α : Type} (e : PErr) (m : PM α) : Prop :=
  ∀ ok s n, (m ok s n).res ≠ .error e

lemma avoids_bind {α β : Type} {e : PErr} {m : PM α} {f : α → PM β}
    (h1 : avoids e m) (h2 : ∀ a, avoids e (f a)) : avoids e (m >>= f) := by
  intro ok s n hcontra
  rw [bind_res] at hcontra
  cases hres : (m ok s n).res with
  | ok a =>
    simp only [hres] at hcontra
    exact h2 a _ _ _ hcontra
  | error e2 =>
    simp only [hres] at hcontra
    injection hcontra with he
    exact h1 ok s n (by rw [hres, he])

lemma avoids_pure {α : Type} (e : PErr) (a : α) : avoids e (PM.pure a) := by
  intro ok s n h
  exact Except.noConfusion h

lemma avoids_pwait (e : PErr) : avoids e pwait := by
  intro ok s n h
  exact Except.noConfusion h

lemma avoids_pget (e : PErr) : avoids e pget := by
  intro ok s n h
  exact Except.noConfusion h

lemma avoids_pmodify (e : PErr) (f : PS → PS) : avoids e (pmodify f) := by
  intro ok s n h
  exact Except.noConfusion h

lemma avoids_psleep (e : PErr) (d : Nat) : avoids e (psleep d) := by
  intro ok s n h
  exact Except.noConfusion h

lemma avoids_pwrite {e : PErr} (he : e ≠ .transport) (bs : List Nat) :
    avoids e (pwrite bs) := by
  intro ok s n h
  unfold pwrite at h
  by_cases hok : ok n
  · rw [if_pos hok] at h
    exact Except.noConfusion h
  · rw [if_neg hok] at h
    injection h with h2
    exact he h2.symm

lemma avoids_pfail {α : Type} {e e2 : PErr} (he : e ≠ e2) :
    avoids e (pfail e2 : PM α) := by
  intro ok s n h
  injection h with h2
  exact he h2.symm

lemma avoids_ite {α : Type} (e : PErr) (c : Prop) [Decidable c] {m1 m2 : PM α}
    (h1 : avoids e m1) (h2 : avoids e m2) : avoids e (if c then m1 else m2) := by
  by_cases hc : c
  · rwa [if_pos hc]
  · rwa [if_neg hc]

lemma avoids_write_bytes {e : PErr} (he : e ≠ .transport) (bs : List Nat) :
    avoids e (write_bytes bs) :=
  avoids_bind (avoids_pwait e) (fun _ => avoids_pwrite he bs)

lemma avoids_write_char {e : PErr} (he : e ≠ .transport) (c : Nat) :
    avoids e (write_char c) := by
  unfold write_char
  refine avoids_ite e _ (avoids_pure e ()) ?_
  refine avoids_bind (avoids_pwait e) (fun _ => ?_)
  refine avoids_bind (avoids_pwrite he _) (fun _ => ?_)
  refine avoids_bind (avoids_pget e) (fun s => ?_)
  exact avoids_ite e _ (avoids_pmodify e _) (avoids_pmodify e _)

lemma avoids_repeatLinefeed {e : PErr} (he : e ≠ .transport) (k : Nat) :
    avoids e (repeatLinefeed k) := by
  induction k with
  | zero => exact avoids_pure e ()
  | succ k ih => exact avoids_bind (avoids_write_char he 10) (fun _ => ih)

lemma avoids_cmd_feed {e : PErr} (he : e ≠ .transport) (lines : Nat) :
    avoids e (cmd_feed lines) := by
  unfold cmd_feed
  refine avoids_bind (avoids_pget e) (fun s => ?_)
  refine avoids_ite e _ ?_ (avoids_repeatLinefeed he _)
  exact avoids_bind (avoids_write_bytes he _) (fun _ => avoids_pmodify e _)

lemma avoids_print_barcode {e : PErr} (he : e ≠ .transport)
    (text : List Nat) (b : Barcode) : avoids e (print_barcode text b) := by
  unfold print_barcode
  refine avoids_bind (avoids_cmd_feed he 1) (fun _ => ?_)
  refine avoids_bind (avoids_pget e) (fun s => ?_)
  refine avoids_bind (avoids_write_bytes he _) (fun _ => ?_)
  refine avoids_bind (avoids_write_bytes he _) (fun _ => ?_)
  refine avoids_ite e _ ?_ ?_
  · exact avoids_bind (avoids_write_bytes he _) (fun _ =>
      avoids_bind (avoids_write_bytes he _) (fun _ => avoids_pmodify e _))
  · exact avoids_bind (avoids_write_bytes he _) (fun _ =>
      avoids_bind (avoids_write_bytes he _) (fun _ =>
        avoids_bind (avoids_write_bytes he _) (fun _ => avoids_pmodify e _)))

/-! ### The success-path behaviour of `print_bitmap` (claims C1, C9) -/

lemma write_bytes_okAll (bs : List Nat) (s : PS) (n : Nat) :
    write_bytes bs okAll s n =
      ⟨.ok (), { s with timeout := 0 }, n + 1,
        [Event.wait s.timeout, Event.write bs]⟩ := rfl

lemma doRow_okAll (wib : Nat) (row : List Bool) (hrow : row.length ≤ 384)
    (hwib : wib ≤ 48) (s : PS) (n : Nat) :
    doRow wib row okAll s n =
      ⟨.ok (), { s with timeout := 0 }, n + 1,
        [Event.wait s.timeout,
         Event.write ((packIntoT (List.replicate 48 0) 0 row).take wib)]⟩ := by
  unfold doRow
  rw [packInto_eq_some row _ 0 (by simp; omega)]
  show (if 48 < wib then pfail .crash
        else write_bytes ((packIntoT (List.replicate 48 0) 0 row).take wib)) okAll s n = _
  rw [if_neg (by omega)]
  exact write_bytes_okAll _ _ _

lemma rowsOf_length_le (w : Nat) : ∀ (k : Nat) (chunk : List Bool),
    ∀ r ∈ rowsOf w k chunk, r.length ≤ w := by
  intro k
  induction k with
  | zero => intro chunk r hr; simp [rowsOf] at hr
  | succ k ih =>
    intro chunk r hr
    unfold rowsOf at hr
    rcases List.mem_cons.mp hr with hEq | hMem
    · rw [hEq, List.length_take]
      omega
    · exact ih _ r hMem

lemma doRows_okAll (wib : Nat) (hwib : wib ≤ 48) :
    ∀ (rows : List (List Bool)), (∀ r ∈ rows, r.length ≤ 384) →
    ∀ (s : PS) (n : Nat),
      (doRows wib rows okAll s n).res = .ok () ∧
      writesOf (doRows wib rows okAll s n).tr =
        rows.map (fun r => (packIntoT (List.replicate 48 0) 0 r).take wib) := by
  intro rows
  induction rows with
  | nil => intro _ s n; exact ⟨rfl, rfl⟩
  | cons r rest ih =>
    intro hrows s n
    have hr : r.length ≤ 384 := hrows r (by simp)
    have hrest : ∀ r2 ∈ rest, r2.length ≤ 384 := fun r2 h2 => hrows r2 (by simp [h2])
    unfold doRows
    rw [bind_ok (a := ()) (by rw [doRow_okAll wib r hr hwib])]
    rw [doRow_okAll wib r hr hwib]
    obtain ⟨ih1, ih2⟩ := ih hrest { s with timeout := 0 } (n + 1)
    constructor
    · exact ih1
    · show writesOf ([Event.wait s.timeout, Event.write _] ++ _) = _
      rw [writesOf_append, ih2]
      rfl

end Printy

namespace Printy

lemma bind_res_of_run {α β : Type} {m : PM α} {f : α → PM β} {ok : Nat → Bool}
    {s : PS} {n : Nat} {a : α} {s2 : PS} {n2 : Nat} {t2 : List Event}
    (h : m ok s n = ⟨.ok a, s2, n2, t2⟩) :
    ((m >>= f) ok s n).res = (f a ok s2 n2).res := by
  rw [bind_res, h]

lemma bind_tr_of_run {α β : Type} {m : PM α} {f : α → PM β} {ok : Nat → Bool}
    {s : PS} {n : Nat} {a : α} {s2 : PS} {n2 : Nat} {t2 : List Event}
    (h : m ok s n = ⟨.ok a, s2, n2, t2⟩) :
    ((m >>= f) ok s n).tr = t2 ++ (f a ok s2 n2).tr := by
  rw [bind_tr, h]

lemma bind_res_of_res {α β : Type} {m : PM α} {f : α → PM β} {ok : Nat → Bool}
    {s : PS} {n : Nat} {a : α} (h : (m ok s n).res = .ok a) :
    ((m >>= f) ok s n).res = (f a ok (m ok s n).ps (m ok s n).cnt).res := by
  rw [bind_res, h]

lemma bind_tr_of_res {α β : Type} {m : PM α} {f : α → PM β} {ok : Nat → Bool}
    {s : PS} {n : Nat} {a : α} (h : (m ok s n).res = .ok a) :
    ((m >>= f) ok s n).tr =
      (m ok s n).tr ++ (f a ok (m ok s n).ps (m ok s n).cnt).tr := by
  rw [bind_tr, h]

lemma doChunk_okAll (w : Nat) (hw1 : 1 ≤ w) (hw : w ≤ 384) (chunk : List Bool)
    (s : PS) (n : Nat) :
    (doChunk w ((w + 7) / 8) chunk okAll s n).res = .ok () ∧
    writesOf (doChunk w ((w + 7) / 8) chunk okAll s n).tr =
      [DC2, 42, (chunk.length / w) % 256, ((w + 7) / 8) % 256] ::
        (rowsOf w (chunk.length / w) chunk).map
          (fun r => (packIntoT (List.replicate 48 0) 0 r).take ((w + 7) / 8)) := by
  have hwib : (w + 7) / 8 ≤ 48 := by omega
  have hrows : ∀ r ∈ rowsOf w (chunk.length / w) chunk, r.length ≤ 384 :=
    fun r hr => le_trans (rowsOf_length_le w (chunk.length / w) chunk r hr) hw
  obtain ⟨h1, h2⟩ := doRows_okAll ((w + 7) / 8) hwib
    (rowsOf w (chunk.length / w) chunk) hrows { s with timeout := 0 } (n + 1)
  constructor
  · show (doChunk w ((w + 7) / 8) chunk okAll s n).res = .ok ()
    unfold doChunk
    rw [bind_res_of_run (write_bytes_okAll _ s n), bind_res_of_res h1]
    rfl
  · unfold doChunk
    rw [bind_tr_of_run (write_bytes_okAll _ s n), bind_tr_of_res h1]
    rw [writesOf_append, writesOf_append, h2]
    simp [writesOf, pmodify]

lemma doChunks_okAll (w : Nat) (hw1 : 1 ≤ w) (hw : w ≤ 384) :
    ∀ (cs : List (List Bool)) (s : PS) (n : Nat),
    (doChunks w ((w + 7) / 8) cs okAll s n).res = .ok () ∧
    writesOf (doChunks w ((w + 7) / 8) cs okAll s n).tr =
      (cs.map (fun c =>
        [DC2, 42, (c.length / w) % 256, ((w + 7) / 8) % 256] ::
          (rowsOf w (c.length / w) c).map
            (fun r => (packIntoT (List.replicate 48 0) 0 r).take ((w + 7) / 8)))).flatten := by
  intro cs
  induction cs with
  | nil => intro s n; exact ⟨rfl, rfl⟩
  | cons c rest ih =>
    intro s n
    obtain ⟨h1, h2⟩ := doChunk_okAll w hw1 hw c s n
    obtain ⟨ih1, ih2⟩ := ih (doChunk w ((w + 7) / 8) c okAll s n).ps
      (doChunk w ((w + 7) / 8) c okAll s n).cnt
    constructor
    · show (doChunks w ((w + 7) / 8) (c :: rest) okAll s n).res = .ok ()
      unfold doChunks
      rw [bind_res_of_res h1]
      exact ih1
    · unfold doChunks
      rw [bind_tr_of_res h1, writesOf_append, h2, ih2]
      rfl

lemma print_bitmap_okAll (w h : Nat) (bits : List Bool) (hw1 : 1 ≤ w)
    (hw : w ≤ 384) (hlen : w * h ≤ bits.length) (s : PS) (n : Nat) :
    (print_bitmap w h bits okAll s n).res = .ok () ∧
    writesOf (print_bitmap w h bits okAll s n).tr =
      ((listChunks ((4096 / w) * w) (bits.take (w * h))).map (fun c =>
        [DC2, 42, (c.length / w) % 256, ((w + 7) / 8) % 256] ::
          (rowsOf w (c.length / w) c).map
            (fun r => (packIntoT (List.replicate 48 0) 0 r).take ((w + 7) / 8)))).flatten := by
  have hdiv : 0 < 4096 / w := Nat.div_pos (by omega) (by omega)
  have hchunk : ¬ (4096 / w) * w = 0 := Nat.mul_ne_zero (by omega) (by omega)
  have hmod : pmodify (fun s2 => { s2 with dot_print_time := 5000 }) okAll s n =
      ⟨.ok (), { s with dot_print_time := 5000 }, n, []⟩ := rfl
  obtain ⟨h1, h2⟩ := doChunks_okAll w hw1 hw
    (listChunks ((4096 / w) * w) (bits.take (w * h)))
    { s with dot_print_time := 5000 } n
  constructor
  · show (print_bitmap w h bits okAll s n).res = .ok ()
    unfold print_bitmap
    rw [if_neg (by omega : ¬ w = 0), bind_res_of_run hmod,
      if_neg (by omega : ¬ bits.length < w * h), if_neg hchunk,
      bind_res_of_res h1]
    rfl
  · unfold print_bitmap
    rw [if_neg (by omega : ¬ w = 0), bind_tr_of_run hmod,
      if_neg (by omega : ¬ bits.length < w * h), if_neg hchunk,
      bind_tr_of_res h1]
    rw [List.nil_append, writesOf_append, h2]
    simp [writesOf, pmodify]

/-! ### Crash-freedom of `print_bitmap` for widths up to 384 (claim C9) -/

lemma avoids_crash_doRow (wib : Nat) (row : List Bool) (hrow : row.length ≤ 384)
    (hwib : wib ≤ 48) : avoids .crash (doRow wib row) := by
  unfold doRow
  rw [packInto_eq_some row _ 0 (by simp; omega)]
  show avoids .crash (if 48 < wib then pfail .crash
    else write_bytes ((packIntoT (List.replicate 48 0) 0 row).take wib))
  rw [if_neg (by omega)]
  exact avoids_write_bytes (by simp) _

lemma avoids_crash_doRows (wib : Nat) (hwib : wib ≤ 48) :
    ∀ (rows : List (List Bool)), (∀ r ∈ rows, r.length ≤ 384) →
    avoids .crash (doRows wib rows) := by
  intro rows
  induction rows with
  | nil => intro _; exact avoids_pure _ ()
  | cons r rest ih =>
    intro hrows
    exact avoids_bind
      (avoids_crash_doRow wib r (hrows r (by simp)) hwib)
      (fun _ => ih (fun r2 h2 => hrows r2 (by simp [h2])))

lemma avoids_crash_doChunk (w : Nat) (hw1 : 1 ≤ w) (hw : w ≤ 384)
    (chunk : List Bool) : avoids .crash (doChunk w ((w + 7) / 8) chunk) := by
  unfold doChunk
  refine avoids_bind (avoids_write_bytes (by simp) _) (fun _ => ?_)
  refine avoids_bind ?_ (fun _ => avoids_pmodify _ _)
  exact avoids_crash_doRows _ (by omega) _
    (fun r hr => le_trans (rowsOf_length_le w _ chunk r hr) hw)

lemma avoids_crash_doChunks (w : Nat) (hw1 : 1 ≤ w) (hw : w ≤ 384) :
    ∀ (cs : List (List Bool)), avoids .crash (doChunks w ((w + 7) / 8) cs) := by
  intro cs
  induction cs with
  | nil => exact avoids_pure _ ()
  | cons c rest ih =>
    exact avoids_bind (avoids_crash_doChunk w hw1 hw c) (fun _ => ih)

lemma avoids_crash_print_bitmap (w h : Nat) (bits : List Bool) (hw1 : 1 ≤ w)
    (hw : w ≤ 384) (hlen : w * h ≤ bits.length) :
    avoids .crash (print_bitmap w h bits) := by
  have hdiv : 0 < 4096 / w := Nat.div_pos (by omega) (by omega)
  have hchunk : ¬ (4096 / w) * w = 0 := Nat.mul_ne_zero (by omega) (by omega)
  unfold print_bitmap
  rw [if_neg (by omega : ¬ w = 0)]
  refine avoids_bind (avoids_pmodify _ _) (fun _ => ?_)
  rw [if_neg (by omega : ¬ bits.length < w * h), if_neg hchunk]
  exact avoids_bind (avoids_crash_doChunks w hw1 hw _) (fun _ => avoids_pmodify _ _)

end Printy

namespace Printy

/-! ### Run characterizations of individual operations -/

lemma pget_run (ok : Nat → Bool) (s : PS) (n : Nat) :
    pget ok s n = ⟨.ok s, s, n, []⟩ := rfl

lemma bind_eq_of_run {α β : Type} {m : PM α} {f : α → PM β} {ok : Nat → Bool}
    {s : PS} {n : Nat} {a : α} {s2 : PS} {n2 : Nat} {t2 : List Event}
    (h : m ok s n = ⟨.ok a, s2, n2, t2⟩) :
    (m >>= f) ok s n =
      ⟨(f a ok s2 n2).res, (f a ok s2 n2).ps, (f a ok s2 n2).cnt,
       t2 ++ (f a ok s2 n2).tr⟩ := by
  have hres : (m ok s n).res = .ok a := by rw [h]
  rw [bind_ok hres, h]

lemma bind_ps_of_run {α β : Type} {m : PM α} {f : α → PM β} {ok : Nat → Bool}
    {s : PS} {n : Nat} {a : α} {s2 : PS} {n2 : Nat} {t2 : List Event}
    (h : m ok s n = ⟨.ok a, s2, n2, t2⟩) :
    ((m >>= f) ok s n).ps = (f a ok s2 n2).ps := by
  rw [bind_ps, h]

lemma bind_res_of_err {α β : Type} {m : PM α} {f : α → PM β} {ok : Nat → Bool}
    {s : PS} {n : Nat} {e : PErr} (h : (m ok s n).res = .error e) :
    ((m >>= f) ok s n).res = .error e := by
  rw [bind_res, h]

lemma write_bytes_okNone (bs : List Nat) (s : PS) (n : Nat) :
    write_bytes bs okNone s n =
      ⟨.error .transport, { s with timeout := 0 }, n + 1, [Event.wait s.timeout]⟩ := rfl

/-- `write_char` on a codepoint congruent to CR mod 256 is a strict
no-op for any oracle and any state. -/
lemma write_char_cr (c : Nat) (hc : c % 256 = 13) (ok : Nat → Bool) (s : PS)
    (n : Nat) : write_char c ok s n = ⟨.ok (), s, n, []⟩ := by
  unfold write_char CR
  rw [if_pos hc]
  rfl

/-- `write_char` on any other codepoint hands exactly the truncated byte
to the port (successful-port run). -/
lemma write_char_writes (c : Nat) (hc : ¬ c % 256 = 13) (s : PS) (n : Nat) :
    (write_char c okAll s n).res = .ok () ∧
    writesOf (write_char c okAll s n).tr = [[c % 256]] := by
  unfold write_char CR
  rw [if_neg hc]
  rw [bind_eq_of_run (show pwait okAll s n =
    ⟨.ok (), { s with timeout := 0 }, n, [Event.wait s.timeout]⟩ from rfl)]
  rw [bind_eq_of_run (show pwrite [c % 256] okAll { s with timeout := 0 } n =
    ⟨.ok (), { s with timeout := 0 }, n + 1, [Event.write [c % 256]]⟩ from rfl)]
  rw [bind_eq_of_run (pget_run okAll { s with timeout := 0 } (n + 1))]
  constructor
  · split <;> rfl
  · split <;> rfl

lemma repeatLinefeed_writes (k : Nat) : ∀ (s : PS) (n : Nat),
    (repeatLinefeed k okAll s n).res = .ok () ∧
    writesOf (repeatLinefeed k okAll s n).tr = List.replicate k [10] := by
  induction k with
  | zero => intro s n; exact ⟨rfl, rfl⟩
  | succ k ih =>
    intro s n
    obtain ⟨h1, h2⟩ := write_char_writes 10 (by decide) s n
    unfold repeatLinefeed
    obtain ⟨ih1, ih2⟩ := ih (write_char 10 okAll s n).ps (write_char 10 okAll s n).cnt
    refine ⟨?_, ?_⟩
    · rw [bind_res_of_res h1]
      exact ih1
    · rw [bind_tr_of_res h1, writesOf_append, h2, ih2]
      rfl

/-- Legacy `cmd_feed 0` is a strict no-op for any oracle and state. -/
lemma cmd_feed_zero_legacy (ok : Nat → Bool) (s : PS)
    (hfw : s.firmware_version < 264) (n : Nat) :
    cmd_feed 0 ok s n = ⟨.ok (), s, n, []⟩ := by
  unfold cmd_feed
  rw [bind_eq_of_run (pget_run ok s n)]
  rw [if_neg (by omega)]
  rfl

/-- Legacy `cmd_feed` emits `lines - 1` line-feed bytes. -/
lemma cmd_feed_legacy_writes (lines : Nat) (s : PS)
    (hfw : s.firmware_version < 264) (n : Nat) :
    (cmd_feed lines okAll s n).res = .ok () ∧
    writesOf (cmd_feed lines okAll s n).tr = List.replicate (lines - 1) [10] := by
  unfold cmd_feed
  obtain ⟨h1, h2⟩ := repeatLinefeed_writes (lines - 1) s n
  constructor
  · rw [bind_res_of_run (pget_run okAll s n), if_neg (by omega)]
    exact h1
  · rw [bind_tr_of_run (pget_run okAll s n), if_neg (by omega), List.nil_append]
    exact h2

/-- Modern `cmd_feed` writes `[ESC,'d',lines mod 256]` and sets the
timeout to `dot_feed_time * char_height`. -/
lemma cmd_feed_modern (lines : Nat) (ok : Nat → Bool) (s : PS)
    (hfw : 264 ≤ s.firmware_version) (hok : ok 0 = true) (n : Nat) (hn : n = 0) :
    cmd_feed lines ok s n =
      ⟨.ok (),
       { s with timeout := s.dot_feed_time * s.char_height,
                last_byte := LF, last_column := 0 },
       1, [Event.wait s.timeout, Event.write [ESC, 100, lines % 256]]⟩ := by
  subst hn
  unfold cmd_feed
  rw [bind_eq_of_run (pget_run ok s 0)]
  rw [if_pos hfw]
  rw [bind_eq_of_run (show write_bytes [ESC, 100, lines % 256] ok s 0 =
    ⟨.ok (), { s with timeout := 0 }, 1,
     [Event.wait s.timeout, Event.write [ESC, 100, lines % 256]]⟩  by
      unfold write_bytes
      rw [bind_eq_of_run (show pwait ok s 0 =
        ⟨.ok (), { s with timeout := 0 }, 0, [Event.wait s.timeout]⟩ from rfl)]
      unfold pwrite
      rw [if_pos hok]
      rfl)]
  rfl

end Printy

namespace Printy

/-- Modern-dialect `print_barcode` on a successful port: the exact
command sequence handed to the port, with the payload length truncated
to a single byte (`text.length % 256`). -/
lemma print_barcode_modern_writes (text : List Nat) (b : Barcode) (s : PS)
    (hfw : 264 ≤ s.firmware_version) :
    (print_barcode text b okAll s 0).res = .ok () ∧
    writesOf (print_barcode text b okAll s 0).tr =
      [[ESC, 100, 1], [GS, 72, 2], [GS, 119, 3],
       [GS, 107, (barcodeByte b + 65) % 256, text.length % 256], text] := by
  have hcf := cmd_feed_modern 1 okAll s hfw rfl 0 rfl
  have hfw1 : 264 ≤
      ({ s with timeout := s.dot_feed_time * s.char_height,
                last_byte := LF, last_column := 0 } : PS).firmware_version := hfw
  unfold print_barcode
  constructor
  · rw [bind_res_of_run hcf, bind_res_of_run (pget_run _ _ _)]
    rw [bind_res_of_run (write_bytes_okAll _ _ _)]
    rw [bind_res_of_run (write_bytes_okAll _ _ _)]
    rw [if_pos hfw1]
    rw [bind_res_of_run (write_bytes_okAll _ _ _)]
    rw [bind_res_of_run (write_bytes_okAll _ _ _)]
    rfl
  · rw [bind_tr_of_run hcf, bind_tr_of_run (pget_run _ _ _)]
    rw [bind_tr_of_run (write_bytes_okAll _ _ _)]
    rw [bind_tr_of_run (write_bytes_okAll _ _ _)]
    rw [if_pos hfw1, if_pos hfw1]
    rw [bind_tr_of_run (write_bytes_okAll _ _ _)]
    rw [bind_tr_of_run (write_bytes_okAll _ _ _)]
    simp [writesOf, pmodify]

/-- With a port on which every write fails, `print_barcode` fails with a
transport error (both firmware dialects). -/
lemma print_barcode_okNone (text : List Nat) (b : Barcode) (s : PS) :
    (print_barcode text b okNone s 0).res = .error .transport := by
  by_cases hfw : 264 ≤ s.firmware_version
  · have hcf : (cmd_feed 1 okNone s 0).res = .error .transport := by
      unfold cmd_feed
      rw [bind_res_of_run (pget_run okNone s 0), if_pos hfw]
      exact bind_res_of_err (by rw [write_bytes_okNone])
    unfold print_barcode
    exact bind_res_of_err hcf
  · have hcf : cmd_feed 1 okNone s 0 = ⟨.ok (), s, 0, []⟩ := by
      unfold cmd_feed
      rw [bind_eq_of_run (pget_run okNone s 0), if_neg hfw]
      rfl
    unfold print_barcode
    rw [bind_res_of_run hcf, bind_res_of_run (pget_run okNone s 0)]
    exact bind_res_of_err (by rw [write_bytes_okNone])

/-- Any failure of `print_barcode` is a transport failure; in
particular it never produces an encoding error. -/
lemma print_barcode_err_transport (text : List Nat) (b : Barcode)
    (ok : Nat → Bool) (s : PS) (n : Nat) (e : PErr)
    (h : (print_barcode text b ok s n).res = .error e) : e = .transport := by
  cases e with
  | transport => rfl
  | encoding =>
    exact absurd h (avoids_print_barcode (by decide) text b ok s n)
  | crash =>
    exact absurd h (avoids_print_barcode (by decide) text b ok s n)

end Printy

namespace Printy

/-! ### Frame conditions on the calibration constants (claim C7) -/

/-- The computation leaves `dot_print_time` and `dot_feed_time`
unchanged, on every oracle, state and path (including error paths). -/
def keepsCal {α : Type} (m : PM α) : Prop :=
  ∀ ok s n, (m ok s n).ps.dot_print_time = s.dot_print_time ∧
    (m ok s n).ps.dot_feed_time = s.dot_feed_time

lemma keepsCal_bind {α β : Type} {m : PM α} {f : α → PM β}
    (h1 : keepsCal m) (h2 : ∀ a, keepsCal (f a)) : keepsCal (m >>= f) := by
  intro ok s n
  rw [bind_ps]
  cases hres : (m ok s n).res with
  | ok a =>
    simp only []
    obtain ⟨ha1, ha2⟩ := h2 a ok (m ok s n).ps (m ok s n).cnt
    obtain ⟨hb1, hb2⟩ := h1 ok s n
    exact ⟨ha1.trans hb1, ha2.trans hb2⟩
  | error e =>
    simp only []
    exact h1 ok s n

lemma keepsCal_pure {α : Type} (a : α) : keepsCal (PM.pure a) :=
  fun _ _ _ => ⟨rfl, rfl⟩

lemma keepsCal_pwait : keepsCal pwait := fun _ _ _ => ⟨rfl, rfl⟩

lemma keepsCal_pget : keepsCal pget := fun _ _ _ => ⟨rfl, rfl⟩

lemma keepsCal_psleep (d : Nat) : keepsCal (psleep d) := fun _ _ _ => ⟨rfl, rfl⟩

lemma keepsCal_pfail {α : Type} (e : PErr) : keepsCal (pfail e : PM α) :=
  fun _ _ _ => ⟨rfl, rfl⟩

lemma keepsCal_pwrite (bs : List Nat) : keepsCal (pwrite bs) := by
  intro ok s n
  unfold pwrite
  split <;> exact ⟨rfl, rfl⟩

lemma keepsCal_pmodify {f : PS → PS}
    (hf : ∀ s, (f s).dot_print_time = s.dot_print_time ∧
      (f s).dot_feed_time = s.dot_feed_time) : keepsCal (pmodify f) :=
  fun _ s _ => hf s

lemma keepsCal_ite {α : Type} (c : Prop) [Decidable c] {m1 m2 : PM α}
    (h1 : keepsCal m1) (h2 : keepsCal m2) : keepsCal (if c then m1 else m2) := by
  by_cases hc : c
  · rwa [if_pos hc]
  · rwa [if_neg hc]

lemma keepsCal_write_bytes (bs : List Nat) : keepsCal (write_bytes bs) :=
  keepsCal_bind keepsCal_pwait (fun _ => keepsCal_pwrite bs)

lemma keepsCal_write_char (c : Nat) : keepsCal (write_char c) := by
  unfold write_char
  refine keepsCal_ite _ (keepsCal_pure ()) ?_
  refine keepsCal_bind keepsCal_pwait (fun _ => ?_)
  refine keepsCal_bind (keepsCal_pwrite _) (fun _ => ?_)
  refine keepsCal_bind keepsCal_pget (fun s => ?_)
  exact keepsCal_ite _ (keepsCal_pmodify (fun _ => ⟨rfl, rfl⟩))
    (keepsCal_pmodify (fun _ => ⟨rfl, rfl⟩))

lemma keepsCal_write (cs : List Nat) : keepsCal (write cs) := by
  induction cs with
  | nil => exact keepsCal_pure ()
  | cons c rest ih => exact keepsCal_bind (keepsCal_write_char c) (fun _ => ih)

lemma keepsCal_repeatLinefeed (k : Nat) : keepsCal (repeatLinefeed k) := by
  induction k with
  | zero => exact keepsCal_pure ()
  | succ k ih => exact keepsCal_bind (keepsCal_write_char 10) (fun _ => ih)

lemma keepsCal_cmd_feed (lines : Nat) : keepsCal (cmd_feed lines) := by
  unfold cmd_feed
  refine keepsCal_bind keepsCal_pget (fun s => ?_)
  refine keepsCal_ite _ ?_ (keepsCal_repeatLinefeed _)
  exact keepsCal_bind (keepsCal_write_bytes _)
    (fun _ => keepsCal_pmodify (fun _ => ⟨rfl, rfl⟩))

lemma keepsCal_print_barcode (text : List Nat) (b : Barcode) :
    keepsCal (print_barcode text b) := by
  unfold print_barcode
  refine keepsCal_bind (keepsCal_cmd_feed 1) (fun _ => ?_)
  refine keepsCal_bind keepsCal_pget (fun s => ?_)
  refine keepsCal_bind (keepsCal_write_bytes _) (fun _ => ?_)
  refine keepsCal_bind (keepsCal_write_bytes _) (fun _ => ?_)
  refine keepsCal_ite _ ?_ ?_
  · exact keepsCal_bind (keepsCal_write_bytes _) (fun _ =>
      keepsCal_bind (keepsCal_write_bytes _)
        (fun _ => keepsCal_pmodify (fun _ => ⟨rfl, rfl⟩)))
  · exact keepsCal_bind (keepsCal_write_bytes _) (fun _ =>
      keepsCal_bind (keepsCal_write_bytes _) (fun _ =>
        keepsCal_bind (keepsCal_write_bytes _)
          (fun _ => keepsCal_pmodify (fun _ => ⟨rfl, rfl⟩))))

lemma keepsCal_cmd_init : keepsCal cmd_init :=
  keepsCal_bind (keepsCal_write_bytes _)
    (fun _ => keepsCal_pmodify (fun _ => ⟨rfl, rfl⟩))

lemma keepsCal_cmd_set_heat_config (d ht hi : Nat) :
    keepsCal (cmd_set_heat_config d ht hi) := by
  unfold cmd_set_heat_config
  exact keepsCal_ite _
    (keepsCal_ite _ (keepsCal_write_bytes _) (keepsCal_pfail _))
    (keepsCal_pfail _)

lemma keepsCal_init : keepsCal init := by
  unfold init
  refine keepsCal_bind keepsCal_cmd_init (fun _ => ?_)
  refine keepsCal_bind (keepsCal_pmodify (fun _ => ⟨rfl, rfl⟩)) (fun _ => ?_)
  refine keepsCal_bind keepsCal_pget (fun s => ?_)
  refine keepsCal_ite _ ?_ ?_
  · exact keepsCal_bind (keepsCal_write_bytes _)
      (fun _ => keepsCal_cmd_set_heat_config 11 120 40)
  · exact keepsCal_bind (keepsCal_pure ())
      (fun _ => keepsCal_cmd_set_heat_config 11 120 40)

lemma keepsCal_doRow (wib : Nat) (row : List Bool) : keepsCal (doRow wib row) := by
  unfold doRow
  cases packInto (List.replicate 48 0) 0 row with
  | none => exact keepsCal_pfail _
  | some b2 => exact keepsCal_ite _ (keepsCal_pfail _) (keepsCal_write_bytes _)

lemma keepsCal_doRows (wib : Nat) (rows : List (List Bool)) :
    keepsCal (doRows wib rows) := by
  induction rows with
  | nil => exact keepsCal_pure ()
  | cons r rest ih => exact keepsCal_bind (keepsCal_doRow wib r) (fun _ => ih)

lemma keepsCal_doChunk (w wib : Nat) (chunk : List Bool) :
    keepsCal (doChunk w wib chunk) := by
  unfold doChunk
  refine keepsCal_bind (keepsCal_write_bytes _) (fun _ => ?_)
  exact keepsCal_bind (keepsCal_doRows wib _)
    (fun _ => keepsCal_pmodify (fun _ => ⟨rfl, rfl⟩))

lemma keepsCal_doChunks (w wib : Nat) (cs : List (List Bool)) :
    keepsCal (doChunks w wib cs) := by
  induction cs with
  | nil => exact keepsCal_pure ()
  | cons c rest ih => exact keepsCal_bind (keepsCal_doChunk w wib c) (fun _ => ih)

/-- `print_bitmap` keeps `dot_feed_time` but overwrites
`dot_print_time` with the hard-coded 5ms whenever `w ≥ 1`. -/
lemma print_bitmap_dots (w h : Nat) (bits : List Bool) (hw1 : 1 ≤ w)
    (ok : Nat → Bool) (s : PS) (n : Nat) :
    (print_bitmap w h bits ok s n).ps.dot_feed_time = s.dot_feed_time ∧
    (print_bitmap w h bits ok s n).ps.dot_print_time = 5000 := by
  have hmod : pmodify (fun s2 => { s2 with dot_print_time := 5000 }) ok s n =
      ⟨.ok (), { s with dot_print_time := 5000 }, n, []⟩ := rfl
  unfold print_bitmap
  rw [if_neg (by omega : ¬ w = 0), bind_ps_of_run hmod]
  by_cases hbl : bits.length < w * h
  · rw [if_pos hbl]
    exact ⟨rfl, rfl⟩
  · rw [if_neg hbl]
    by_cases hch : (4096 / w) * w = 0
    · rw [if_pos hch]
      exact ⟨rfl, rfl⟩
    · rw [if_neg hch]
      have hkc : keepsCal
          (doChunks w ((w + 7) / 8) (listChunks ((4096 / w) * w) (bits.take (w * h))) >>=
            (fun _ => pmodify (fun s2 => { s2 with last_byte := LF }))) :=
        keepsCal_bind (keepsCal_doChunks _ _ _)
          (fun _ => keepsCal_pmodify (fun _ => ⟨rfl, rfl⟩))
      obtain ⟨h1, h2⟩ := hkc ok { s with dot_print_time := 5000 } n
      exact ⟨h2, h1⟩

end Printy

namespace Printy

/-! ### Bridging lemmas for the claim statements -/

lemma crashed_eq_false_of_avoids {m : PM Unit} (h : avoids .crash m)
    (ok : Nat → Bool) (s : PS) : crashed (runOp m ok s) = false := by
  unfold crashed runOp
  cases hres : (m ok s 0).res with
  | ok a => rfl
  | error e =>
    cases e with
    | transport => rfl
    | encoding => rfl
    | crash => exact absurd hres (h ok s 0)

lemma encodingFailed_eq_false_of_avoids {m : PM Unit} (h : avoids .encoding m)
    (ok : Nat → Bool) (s : PS) : encodingFailed (runOp m ok s) = false := by
  unfold encodingFailed runOp
  cases hres : (m ok s 0).res with
  | ok a => rfl
  | error e =>
    cases e with
    | transport => rfl
    | crash => rfl
    | encoding => exact absurd hres (h ok s 0)

lemma print_bitmap_feed (w h : Nat) (bits : List Bool) (ok : Nat → Bool)
    (s : PS) (n : Nat) :
    (print_bitmap w h bits ok s n).ps.dot_feed_time = s.dot_feed_time := by
  by_cases hw : w = 0
  · unfold print_bitmap
    rw [if_pos hw]
    rfl
  · exact (print_bitmap_dots w h bits (by omega) ok s n).1

end Printy

namespace Printy

/-! ### Claim theorems -/

/-- Claim C1, counterexample: on an 8-by-1 bitmap the chunk header
actually written by `print_bitmap` is the legacy `[DC2,'*',rows,
w_in_bytes]` command `[18,42,1,1]`, which differs from the raster-mode
header `[GS,'v',0,0,w_in_bytes,0,rows_lo,rows_hi]` = `[29,118,0,0,1,0,1,0]`
asserted by the claim. -/
theorem c1_gs_header_refuted :
    (writesOf (runOp (print_bitmap 8 1 (List.replicate 8 true)) okAll
      printerNew).tr).head? = some [18, 42, 1, 1] ∧
    (([18, 42, 1, 1] : List Nat) == [29, 118, 0, 0, 1, 0, 1, 0]) = false := by
  constructor
  · decide
  · decide

/-- Claim C1, amended: every chunk emitted by `print_bitmap` is headed
by the legacy raster command `[DC2,'*', rows mod 256, w_in_bytes mod
256]` (with `w_in_bytes = ceil(width/8)`), followed by the packed rows
of that chunk. -/
theorem c1_chunk_header_dc2 (w h : Nat) (bits : List Bool) (s : PS)
    (hw1 : 1 ≤ w) (hw : w ≤ 384) (hlen : w * h ≤ bits.length) :
    writesOf (runOp (print_bitmap w h bits) okAll s).tr =
      ((listChunks ((4096 / w) * w) (bits.take (w * h))).map (fun c =>
        [DC2, 42, (c.length / w) % 256, ((w + 7) / 8) % 256] ::
          (rowsOf w (c.length / w) c).map
            (fun r => (packIntoT (List.replicate 48 0) 0 r).take ((w + 7) / 8)))).flatten :=
  (print_bitmap_okAll w h bits hw1 hw hlen s 0).2

theorem c1_chunk_header_dc2_witness :
    writesOf (runOp (print_bitmap 8 2 (unpackBytes [5, 7])) okAll
      printerNew).tr = [[18, 42, 2, 1], [5], [7]] := by
  rw [c1_chunk_header_dc2 8 2 (unpackBytes [5, 7]) printerNew (by decide)
    (by decide) (by decide)]
  decide

/-- Claim C2, counterexample: `cmd_set_print_density` hands its command
byte to the port with no preceding wait, leaving the 500ms pending
startup timeout unconsumed. -/
theorem c2_direct_write_refuted :
    waitLed (runOp (cmd_set_print_density 10 0) okAll printerNew).tr = false ∧
    (runOp (cmd_set_print_density 10 0) okAll printerNew).ps.timeout = 500000 ∧
    writesOf (runOp (cmd_set_print_density 10 0) okAll printerNew).tr =
      [[27, 35, 10]] := by
  refine ⟨?_, ?_, ?_⟩ <;> decide

/-- Claim C2, amended: every public printer operation except
`cmd_set_print_density` and `cmd_set_underline` performs the
pending-timeout wait before any byte reaches the port: on every oracle
and state its event trace never shows a `write` before the first
`wait`. -/
theorem c2_wait_discipline :
    (∀ (bs : List Nat) (ok : Nat → Bool) (s : PS),
      waitLed (runOp (write_bytes bs) ok s).tr = true) ∧
    (∀ (c : Nat) (ok : Nat → Bool) (s : PS),
      waitLed (runOp (write_char c) ok s).tr = true) ∧
    (∀ (cs : List Nat) (ok : Nat → Bool) (s : PS),
      waitLed (runOp (write cs) ok s).tr = true) ∧
    (∀ (lines : Nat) (ok : Nat → Bool) (s : PS),
      waitLed (runOp (cmd_feed lines) ok s).tr = true) ∧
    (∀ (ok : Nat → Bool) (s : PS),
      waitLed (runOp cmd_wake ok s).tr = true) ∧
    (∀ (ok : Nat → Bool) (s : PS),
      waitLed (runOp cmd_init ok s).tr = true) ∧
    (∀ (ok : Nat → Bool) (s : PS),
      waitLed (runOp cmd_flush ok s).tr = true) ∧
    (∀ (d ht hi : Nat) (ok : Nat → Bool) (s : PS),
      waitLed (runOp (cmd_set_heat_config d ht hi) ok s).tr = true) ∧
    (∀ (v : Nat) (ok : Nat → Bool) (s : PS),
      waitLed (runOp (set_barcode_height v) ok s).tr = true) ∧
    (∀ (ok : Nat → Bool) (s : PS),
      waitLed (runOp cmd_test_page ok s).tr = true) ∧
    (∀ (text : List Nat) (b : Barcode) (ok : Nat → Bool) (s : PS),
      waitLed (runOp (print_barcode text b) ok s).tr = true) ∧
    (∀ (w h : Nat) (bits : List Bool) (ok : Nat → Bool) (s : PS),
      waitLed (runOp (print_bitmap w h bits) ok s).tr = true) ∧
    (∀ (ok : Nat → Bool) (s : PS),
      waitLed (runOp init ok s).tr = true) := by
  refine ⟨?_, ?_, ?_, ?_, ?_, ?_, ?_, ?_, ?_, ?_, ?_, ?_, ?_⟩
  · exact fun bs => waitLed_of_swe (hw_write_bytes bs).swe
  · exact fun c => waitLed_of_swe (swe_write_char c)
  · exact fun cs => waitLed_of_swe (swe_write cs)
  · exact fun lines => waitLed_of_swe (swe_cmd_feed lines)
  · exact waitLed_of_swe swe_cmd_wake
  · exact waitLed_of_swe swe_cmd_init
  · exact waitLed_of_swe swe_cmd_flush
  · exact fun d ht hi => waitLed_of_swe (swe_cmd_set_heat_config d ht hi)
  · exact fun v => waitLed_of_swe (swe_set_barcode_height v)
  · exact waitLed_of_swe swe_cmd_test_page
  · exact fun text b => waitLed_of_swe (swe_print_barcode text b)
  · exact fun w h bits => waitLed_of_swe (swe_print_bitmap w h bits)
  · exact waitLed_of_swe swe_init

/-- Claim C3: for a width that is a positive multiple of 8, splitting a
bitmap into rows of `width` bits, packing each row MSB-first into
`width/8` bytes, and unpacking the bytes back to bits MSB-first,
reproduces the original bit sequence exactly. -/
theorem c3_pack_unpack_roundtrip (w : Nat) (bits : List Bool) (hw : 0 < w)
    (h8 : w % 8 = 0) (hdvd : w ∣ bits.length) :
    ((listChunks w bits).map (fun row => unpackBytes (packBits w row))).flatten =
      bits :=
  roundtrip_fuel w hw h8 bits.length bits le_rfl hdvd

theorem c3_pack_unpack_roundtrip_witness :
    0 < 8 ∧ 8 % 8 = 0 ∧ 8 ∣ (unpackBytes [5, 7]).length ∧
    ((listChunks 8 (unpackBytes [5, 7])).map
      (fun row => unpackBytes (packBits 8 row))).flatten = unpackBytes [5, 7] :=
  ⟨by decide, by decide, by decide,
   c3_pack_unpack_roundtrip 8 (unpackBytes [5, 7]) (by decide) (by decide)
     (by decide)⟩

/-- Claim C4 (code bug): on legacy firmware (< 264) `cmd_feed lines`
emits `lines - 1` line feeds instead of `lines`: `cmd_feed 1` writes no
byte at all and `cmd_feed 3` writes only two `LF` bytes. -/
theorem c4_feed_legacy_offbyone :
    (runOp (cmd_feed 1) okAll legacyPrinter).res = .ok () ∧
    writesOf (runOp (cmd_feed 1) okAll legacyPrinter).tr = [] ∧
    writesOf (runOp (cmd_feed 3) okAll legacyPrinter).tr = [[10], [10]] := by
  refine ⟨?_, ?_, ?_⟩ <;> decide

/-- Claim C5, counterexample: on the modern firmware dialect
`cmd_feed 0` is not a no-op: it writes the three-byte feed command
`[ESC,'d',0]` and replaces the pending timeout. -/
theorem c5_modern_feed_zero_refuted :
    writesOf (runOp (cmd_feed 0) okAll printerNew).tr = [[27, 100, 0]] ∧
    (runOp (cmd_feed 0) okAll printerNew).ps.timeout = 50400 ∧
    printerNew.timeout = 500000 := by
  refine ⟨?_, ?_, ?_⟩ <;> decide

/-- Claim C5, amended: `cmd_feed 0` is a strict no-op (no bytes, no
state change) only on the legacy dialect (`firmware_version < 264`); on
the modern dialect it writes `[ESC,'d',0]` and sets the pending timeout
to `dot_feed_time * char_height`. -/
theorem c5_feed_zero :
    (∀ (ok : Nat → Bool) (s : PS), s.firmware_version < 264 →
      runOp (cmd_feed 0) ok s = ⟨.ok (), s, 0, []⟩) ∧
    (∀ s : PS, 264 ≤ s.firmware_version →
      writesOf (runOp (cmd_feed 0) okAll s).tr = [[ESC, 100, 0]] ∧
      (runOp (cmd_feed 0) okAll s).ps.timeout =
        s.dot_feed_time * s.char_height) := by
  constructor
  · intro ok s hfw
    exact cmd_feed_zero_legacy ok s hfw 0
  · intro s hfw
    have h := cmd_feed_modern 0 okAll s hfw rfl 0 rfl
    unfold runOp
    rw [h]
    exact ⟨by simp [writesOf], rfl⟩

theorem c5_feed_zero_witness :
    runOp (cmd_feed 0) okAll legacyPrinter = ⟨.ok (), legacyPrinter, 0, []⟩ ∧
    writesOf (runOp (cmd_feed 0) okAll printerNew).tr = [[ESC, 100, 0]] :=
  ⟨c5_feed_zero.1 okAll legacyPrinter (by decide),
   (c5_feed_zero.2 printerNew (by decide)).1⟩

set_option maxRecDepth 20000 in
/-- Claim C6, counterexample: a 256-byte barcode payload does not
produce an `EncodingError`: `print_barcode` succeeds and silently
truncates the length byte to `256 mod 256 = 0`. -/
theorem c6_overlong_barcode_refuted :
    (runOp (print_barcode (List.replicate 256 65) Barcode.code39) okAll
      printerNew).res = .ok () ∧
    writesOf (runOp (print_barcode (List.replicate 256 65) Barcode.code39)
      okAll printerNew).tr =
      [[27, 100, 1], [29, 72, 2], [29, 119, 3], [29, 107, 69, 0],
       List.replicate 256 65] := by
  constructor
  · decide
  · decide

/-- Claim C6, amended: `print_barcode` never fails with an encoding
error for any payload length (the length is truncated to
`text.length mod 256` in the single length byte); with a failing port it
fails with a transport error; and on the modern dialect with a working
port it emits exactly the barcode command sequence with the truncated
length byte. -/
theorem c6_barcode_length :
    (∀ (text : List Nat) (b : Barcode) (ok : Nat → Bool) (s : PS),
      encodingFailed (runOp (print_barcode text b) ok s) = false) ∧
    (∀ (text : List Nat) (b : Barcode) (s : PS),
      (runOp (print_barcode text b) okNone s).res = .error .transport) ∧
    (∀ (text : List Nat) (b : Barcode) (s : PS), 264 ≤ s.firmware_version →
      (runOp (print_barcode text b) okAll s).res = .ok () ∧
      writesOf (runOp (print_barcode text b) okAll s).tr =
        [[ESC, 100, 1], [GS, 72, 2], [GS, 119, 3],
         [GS, 107, (barcodeByte b + 65) % 256, text.length % 256], text]) := by
  refine ⟨?_, ?_, ?_⟩
  · intro text b ok s
    exact encodingFailed_eq_false_of_avoids
      (avoids_print_barcode (by decide) text b) ok s
  · intro text b s
    exact print_barcode_okNone text b s
  · intro text b s hfw
    exact print_barcode_modern_writes text b s hfw

theorem c6_barcode_length_witness :
    encodingFailed (runOp (print_barcode (List.replicate 300 65) Barcode.upcA)
      okNone printerNew) = false ∧
    writesOf (runOp (print_barcode [65, 66] Barcode.code39) okAll
      printerNew).tr =
      [[27, 100, 1], [29, 72, 2], [29, 119, 3], [29, 107, 69, 2], [65, 66]] :=
  ⟨c6_barcode_length.1 (List.replicate 300 65) Barcode.upcA okNone printerNew,
   by
    rw [(c6_barcode_length.2.2 [65, 66] Barcode.code39 printerNew (by decide)).2]
    decide⟩

/-- Claim C7, counterexample: `print_bitmap` changes the calibration
constant `dot_print_time`, overwriting the configured 20ms with a
hard-coded 5ms. -/
theorem c7_print_bitmap_changes_calibration :
    printerNew.dot_print_time = 20000 ∧
    (runOp (print_bitmap 8 1 (List.replicate 8 false)) okAll
      printerNew).ps.dot_print_time = 5000 := by
  constructor
  · decide
  · decide

/-- Claim C7, amended: `write_char`, `write`, `print_barcode`,
`cmd_feed` and `init` leave both calibration constants unchanged;
`print_bitmap` leaves `dot_feed_time` unchanged but sets
`dot_print_time` to the hard-coded 5ms whenever `width ≥ 1`. -/
theorem c7_calibration_frame :
    (∀ (c : Nat) (ok : Nat → Bool) (s : PS),
      (runOp (write_char c) ok s).ps.dot_print_time = s.dot_print_time ∧
      (runOp (write_char c) ok s).ps.dot_feed_time = s.dot_feed_time) ∧
    (∀ (cs : List Nat) (ok : Nat → Bool) (s : PS),
      (runOp (write cs) ok s).ps.dot_print_time = s.dot_print_time ∧
      (runOp (write cs) ok s).ps.dot_feed_time = s.dot_feed_time) ∧
    (∀ (text : List Nat) (b : Barcode) (ok : Nat → Bool) (s : PS),
      (runOp (print_barcode text b) ok s).ps.dot_print_time = s.dot_print_time ∧
      (runOp (print_barcode text b) ok s).ps.dot_feed_time = s.dot_feed_time) ∧
    (∀ (lines : Nat) (ok : Nat → Bool) (s : PS),
      (runOp (cmd_feed lines) ok s).ps.dot_print_time = s.dot_print_time ∧
      (runOp (cmd_feed lines) ok s).ps.dot_feed_time = s.dot_feed_time) ∧
    (∀ (ok : Nat → Bool) (s : PS),
      (runOp init ok s).ps.dot_print_time = s.dot_print_time ∧
      (runOp init ok s).ps.dot_feed_time = s.dot_feed_time) ∧
    (∀ (w h : Nat) (bits : List Bool) (ok : Nat → Bool) (s : PS),
      (runOp (print_bitmap w h bits) ok s).ps.dot_feed_time =
        s.dot_feed_time) ∧
    (∀ (w h : Nat) (bits : List Bool) (ok : Nat → Bool) (s : PS), 1 ≤ w →
      (runOp (print_bitmap w h bits) ok s).ps.dot_print_time = 5000) := by
  refine ⟨?_, ?_, ?_, ?_, ?_, ?_, ?_⟩
  · exact fun c ok s => keepsCal_write_char c ok s 0
  · exact fun cs ok s => keepsCal_write cs ok s 0
  · exact fun text b ok s => keepsCal_print_barcode text b ok s 0
  · exact fun lines ok s => keepsCal_cmd_feed lines ok s 0
  · exact fun ok s => keepsCal_init ok s 0
  · exact fun w h bits ok s => print_bitmap_feed w h bits ok s 0
  · exact fun w h bits ok s hw => (print_bitmap_dots w h bits hw ok s 0).2

theorem c7_calibration_frame_witness :
    (runOp (print_bitmap 8 1 (List.replicate 8 false)) okAll
      printerNew).ps.dot_print_time = 5000 ∧
    (runOp (write [72, 105]) okAll printerNew).ps.dot_print_time =
      printerNew.dot_print_time :=
  ⟨c7_calibration_frame.2.2.2.2.2.2 8 1 (List.replicate 8 false) okAll
    printerNew (by decide),
   (c7_calibration_frame.2.1 [72, 105] okAll printerNew).1⟩

/-- Claim C8, counterexample: at 999 baud the byte-transmission constant
computed by the code (round-to-nearest, 11011us) differs from the
ceiling formula of the claim (11012us). -/
theorem c8_not_ceiling :
    BYTE_DURATION 999 = 11011 ∧
    (11 * 1000000 + 999 - 1) / 999 = 11012 ∧
    ((11011 : Nat) == 11012) = false := by
  refine ⟨?_, ?_, ?_⟩ <;> decide

/-- Claim C8, amended: `BYTE_DURATION` is `11e6 / BAUDRATE` microseconds
rounded to the nearest integer (within half a unit of the exact value:
`|BYTE_DURATION * baud - 11e6| ≤ baud / 2`), not the ceiling; at the
configured 19200 baud the two formulas agree at 573us. -/
theorem c8_byte_duration_nearest :
    (∀ b : Nat, 0 < b →
      2 * 11000000 ≤ 2 * (b * BYTE_DURATION b) + b ∧
      2 * (b * BYTE_DURATION b) ≤ 2 * 11000000 + b) ∧
    BYTE_DURATION 19200 = 573 ∧ (11 * 1000000 + 19200 - 1) / 19200 = 573 := by
  refine ⟨?_, by decide, by decide⟩
  intro b hb
  have hdm := Nat.div_add_mod (11 * 1000000 + b / 2) b
  have hmlt : (11 * 1000000 + b / 2) % b < b := Nat.mod_lt _ hb
  unfold BYTE_DURATION
  omega

theorem c8_byte_duration_nearest_witness :
    2 * 11000000 ≤ 2 * (19200 * BYTE_DURATION 19200) + 19200 ∧
    2 * (19200 * BYTE_DURATION 19200) ≤ 2 * 11000000 + 19200 :=
  c8_byte_duration_nearest.1 19200 (by decide)

set_option maxRecDepth 40000 in
/-- Claim C9: under the precondition (`width ≥ 1`, enough bits for
`width*height`), the packing loop of `print_bitmap` stays inside its
fixed 48-byte row buffer exactly when `width ≤ 384` (`ceil(width/8) ≤
48`): no run can panic for `width ≤ 384`, while at `width = 385` a set
bit at index 384 drives the loop out of bounds and the run panics. -/
theorem c9_pack_buffer_bounds :
    (∀ (w h : Nat) (bits : List Bool) (ok : Nat → Bool) (s : PS),
      1 ≤ w → w ≤ 384 → w * h ≤ bits.length →
      crashed (runOp (print_bitmap w h bits) ok s) = false) ∧
    packInto (List.replicate 48 0) 0 (List.replicate 384 false ++ [true]) =
      none ∧
    crashed (runOp (print_bitmap 385 1 (List.replicate 384 false ++ [true]))
      okAll printerNew) = true := by
  refine ⟨?_, by decide, by decide⟩
  intro w h bits ok s hw1 hw hlen
  exact crashed_eq_false_of_avoids
    (avoids_crash_print_bitmap w h bits hw1 hw hlen) ok s

theorem c9_pack_buffer_bounds_witness :
    crashed (runOp (print_bitmap 8 2 (unpackBytes [5, 7])) okAll printerNew) =
      false :=
  c9_pack_buffer_bounds.1 8 2 (unpackBytes [5, 7]) okAll printerNew
    (by decide) (by decide) (by decide)

/-- Claim C10: `write_char` truncates every codepoint to its low 8 bits:
a codepoint congruent to `0x0D` mod 256 is silently dropped with no byte
written and no state change, and any other codepoint is transmitted as
the single byte `codepoint mod 256`. -/
theorem c10_write_char_truncation :
    (∀ (c : Nat) (ok : Nat → Bool) (s : PS), c % 256 = 13 →
      runOp (write_char c) ok s = ⟨.ok (), s, 0, []⟩) ∧
    (∀ (c : Nat) (s : PS), ¬ c % 256 = 13 →
      (runOp (write_char c) okAll s).res = .ok () ∧
      writesOf (runOp (write_char c) okAll s).tr = [[c % 256]]) := by
  constructor
  · intro c ok s hc
    exact write_char_cr c hc ok s 0
  · intro c s hc
    exact write_char_writes c hc s 0

theorem c10_write_char_truncation_witness :
    runOp (write_char 781) okAll printerNew = ⟨.ok (), printerNew, 0, []⟩ ∧
    writesOf (runOp (write_char 321) okAll printerNew).tr = [[65]] :=
  ⟨c10_write_char_truncation.1 781 okAll printerNew (by decide),
   by
    rw [(c10_write_char_truncation.2 321 printerNew (by decide)).2]⟩

end Printy
